import Mathlib

/-!
Formal model of the task-management backend routes (`backend/routes/tasks.js`
and `backend/routes/users.js`).  The document store is modelled as a list of
records in natural order; MongoDB query objects become boolean predicates over
records, `find`/`countDocuments`/`updateMany`/`findOne` become list filtering,
counting and mapping.  Machine-irrelevant details (HTTP plumbing, population of
the `user` field in responses) are omitted; response status, success flag and
message are kept.
-/

namespace PrimeTrade

/-- A task document.  Fields follow the schema usage visible in the routes:
`_id` and the owning `user` reference are modelled as naturals, timestamps and
due dates as integers, `tags` as a list of strings, `isArchived` as a boolean. -/
structure Task where
  id : Nat
  user : Nat
  title : String
  description : String
  status : String
  priority : String
  category : String
  tags : List String
  dueDate : Option Int
  isArchived : Bool
  createdAt : Int
deriving DecidableEq, Repr

/-- The part of the HTTP response the claims talk about: status code, the
`success` flag and the `message` string (empty when the route sends none). -/
structure Response where
  status : Nat
  success : Bool
  message : String
deriving DecidableEq, Repr

/-- A user document (`backend/routes/users.js`). -/
structure User where
  id : Nat
  name : String
  email : String
  role : String
  isActive : Bool
  lastLogin : Option Int
  password : String
deriving DecidableEq, Repr

/-- One element of a compiled JavaScript regular expression, restricted to the
subset this model supports: a literal character or the `.` wildcard. -/
inductive RTok where
  | lit (c : Char)
  | dot
deriving DecidableEq, Repr

/-- Characters that are metacharacters in a JavaScript regular expression. -/
def regexMetaChars : List Char :=
  ['.', '*', '+', '?', '^', '$', '(', ')', '[', ']', '\x7b', '\x7d', '|', '\\']

/-- Compile a pattern string into a token sequence.  `.` becomes the wildcard,
any other metacharacter makes the pattern fall outside the modelled subset. -/
def tokenizePattern : List Char → Option (List RTok)
  | [] => some []
  | c :: cs =>
    if c = '.' then (tokenizePattern cs).map (fun ts => RTok.dot :: ts)
    else if regexMetaChars.contains c then none
    else (tokenizePattern cs).map (fun ts => RTok.lit c :: ts)

/-- Case-insensitive single-character match; the wildcard matches everything
except a line terminator, as in JavaScript. -/
def rtokMatches : RTok → Char → Bool
  | RTok.lit l, c => l.toLower == c.toLower
  | RTok.dot, c => decide (c ≠ '\n') && decide (c ≠ '\r')

/-- Does the token sequence match a prefix of the character list? -/
def matchSeqAt : List RTok → List Char → Bool
  | [], _ => true
  | _ :: _, [] => false
  | t :: ts, c :: cs => rtokMatches t c && matchSeqAt ts cs

/-- Does the token sequence match starting at some position? -/
def matchSeqSomewhere (ts : List RTok) : List Char → Bool
  | [] => matchSeqAt ts []
  | c :: cs => matchSeqAt ts (c :: cs) || matchSeqSomewhere ts cs

/-- Models the JavaScript test `new RegExp(pat, 'i').test(hay)` for the pattern
subset of literal characters and the `.` wildcard; a pattern using any other
metacharacter is outside the model and yields `false`. -/
def jsRegexTestCI (pat hay : String) : Bool :=
  match tokenizePattern pat.toList with
  | some ts => matchSeqSomewhere ts hay.toList
  | none => false

/-- Characters of a string, lower-cased. -/
def lowerChars (s : String) : List Char :=
  s.toList.map Char.toLower

/-- Substring occurrence on character lists. -/
def containsSub : List Char → List Char → Bool
  | [], needle => needle.isEmpty
  | c :: tl, needle => needle.isPrefixOf (c :: tl) || containsSub tl needle

/-- Case-insensitive substring occurrence: the relation the specification's
wording uses for the search clause. -/
def ciContains (hay needle : String) : Bool :=
  containsSub (lowerChars hay) (lowerChars needle)

/-- The recognized query-string options of the list route, after the JavaScript
destructuring defaults (routes/tasks.js lines 17-27).  String options model the
raw query values, with the empty string standing for an absent (falsy) value;
`page` and `limit` are the numeric values used by skip/limit. -/
structure ListParams where
  status : String
  priority : String
  category : String
  search : String
  sortBy : String
  sortOrder : String
  page : Nat
  limit : Nat
  includeArchived : String
deriving DecidableEq, Repr

/-- The fixed part of the list query (routes/tasks.js lines 30-33): the owner
scope, and the archived clause which admits both archived states exactly when
`includeArchived` is the string `true`. -/
def ownerArchivedClause (uid : Nat) (p : ListParams) (t : Task) : Bool :=
  decide (t.user = uid) &&
    (if p.includeArchived = "true" then true else decide (t.isArchived = false))

/-- The optional equality/regex filters (routes/tasks.js lines 36-38). -/
def optionalFilters (p : ListParams) (t : Task) : Bool :=
  (p.status.isEmpty || decide (t.status = p.status)) &&
  (p.priority.isEmpty || decide (t.priority = p.priority)) &&
  (p.category.isEmpty || jsRegexTestCI p.category t.category)

/-- The `$or` search clause (routes/tasks.js lines 39-45): the regex built from
the search string against title, description, or any tag. -/
def searchClause (s : String) (t : Task) : Bool :=
  jsRegexTestCI s t.title || jsRegexTestCI s t.description ||
    t.tags.any (fun tg => jsRegexTestCI s tg)

/-- The whole list query as a predicate on a task. -/
def taskMatchesList (uid : Nat) (p : ListParams) (t : Task) : Bool :=
  ownerArchivedClause uid p t && optionalFilters p t &&
    (p.search.isEmpty || searchClause p.search t)

/-- Single-key sort key.  Only the date-valued fields get a nontrivial key in
this model; no claim depends on the ordering itself, only on the sorted output
being a permutation of its input. -/
def sortKey (sortBy : String) (t : Task) : Int :=
  if sortBy = "createdAt" then t.createdAt
  else if sortBy = "dueDate" then t.dueDate.getD 0
  else 0

/-- Comparison used by the sort: ascending when sortOrder is the string "asc",
descending otherwise. -/
def taskLE (p : ListParams) (a b : Task) : Bool :=
  if p.sortOrder = "asc" then decide (sortKey p.sortBy a ≤ sortKey p.sortBy b)
  else decide (sortKey p.sortBy b ≤ sortKey p.sortBy a)

/-- Stable insertion into a sorted list. -/
def insertLE (le : Task → Task → Bool) (t : Task) : List Task → List Task
  | [] => [t]
  | h :: tl => if le t h then t :: h :: tl else h :: insertLE le t tl

/-- The store's single-key sort, modelled as insertion sort. -/
def sortTasks (le : Task → Task → Bool) : List Task → List Task
  | [] => []
  | h :: tl => insertLE le h (sortTasks le tl)

/-- Pagination metadata of the list response (routes/tasks.js lines 65-70). -/
structure Pagination where
  current : Nat
  total : Nat
  count : Nat
  totalRecords : Nat
deriving DecidableEq, Repr

/-- GET /api/tasks (routes/tasks.js lines 15-75): filter the store by the built
query, sort, skip `(page-1)*limit`, take `limit`; `totalRecords` is the
unpaginated match count and `total` is `Math.ceil(total/limit)` pages. -/
def listTasks (store : List Task) (uid : Nat) (p : ListParams) :
    List Task × Pagination :=
  let matched := store.filter (taskMatchesList uid p)
  let sorted := sortTasks (taskLE p) matched
  let tasks := (sorted.drop ((p.page - 1) * p.limit)).take p.limit
  (tasks,
    ⟨p.page, (matched.length + p.limit - 1) / p.limit, tasks.length, matched.length⟩)

/-- `Task.findOne` on `_id` and `user`, the ownership-scoped lookup every
single-record route begins with. -/
def findOne (store : List Task) (id uid : Nat) : Option Task :=
  store.find? (fun t => decide (t.id = id) && decide (t.user = uid))

/-- The 404 response shared by all single-record task routes. -/
def notFoundTask : Response :=
  ⟨404, false, "Task not found"⟩

/-- GET /api/tasks/:id (routes/tasks.js lines 80-101). -/
def getTaskById (store : List Task) (uid id : Nat) : Response × Option Task :=
  match findOne store id uid with
  | none => (notFoundTask, none)
  | some t => (⟨200, true, ""⟩, some t)

/-- A partial update payload (the JSON body of PUT /:id or the `updates` object
of the bulk route); `none` marks an absent key. -/
structure TaskUpdate where
  user : Option Nat
  title : Option String
  description : Option String
  status : Option String
  priority : Option String
  category : Option String
  tags : Option (List String)
  dueDate : Option (Option Int)
  isArchived : Option Bool
deriving DecidableEq, Repr

/-- Mongo `$set` application of a partial payload to a document. -/
def applyUpdate (u : TaskUpdate) (t : Task) : Task :=
  { t with
    user := u.user.getD t.user,
    title := u.title.getD t.title,
    description := u.description.getD t.description,
    status := u.status.getD t.status,
    priority := u.priority.getD t.priority,
    category := u.category.getD t.category,
    tags := u.tags.getD t.tags,
    dueDate := u.dueDate.getD t.dueDate,
    isArchived := u.isArchived.getD t.isArchived }

/-- The owner-stripping step `delete req.body.user` / `delete updates.user`. -/
def stripUser (u : TaskUpdate) : TaskUpdate :=
  { u with user := none }

/-- Does the payload have no keys at all (`Object.keys(updates).length === 0`)? -/
def isEmptyUpdate (u : TaskUpdate) : Bool :=
  u.user.isNone && u.title.isNone && u.description.isNone && u.status.isNone &&
    u.priority.isNone && u.category.isNone && u.tags.isNone && u.dueDate.isNone &&
    u.isArchived.isNone

/-- PUT /api/tasks/:id (routes/tasks.js lines 129-163): ownership-scoped lookup,
strip the owner field from the body, then `findByIdAndUpdate` on the id. -/
def updateTask (store : List Task) (uid id : Nat) (body : TaskUpdate) :
    Response × List Task :=
  match findOne store id uid with
  | none => (notFoundTask, store)
  | some _ =>
    let b := stripUser body
    (⟨200, true, "Task updated successfully"⟩,
      store.map (fun t => if t.id = id then applyUpdate b t else t))

/-- DELETE /api/tasks/:id (routes/tasks.js lines 168-191): ownership-scoped
lookup, then `findByIdAndDelete` on the id. -/
def deleteTask (store : List Task) (uid id : Nat) : Response × List Task :=
  match findOne store id uid with
  | none => (notFoundTask, store)
  | some _ =>
    (⟨200, true, "Task deleted successfully"⟩,
      store.filter (fun t => decide (t.id ≠ id)))

/-- PATCH /api/tasks/:id/archive (routes/tasks.js lines 196-221):
ownership-scoped lookup, negate `isArchived`, save the document back. -/
def archiveToggle (store : List Task) (uid id : Nat) :
    Response × Option Task × List Task :=
  match findOne store id uid with
  | none => (notFoundTask, none, store)
  | some task =>
    let updated := { task with isArchived := !task.isArchived }
    (⟨200, true,
        if updated.isArchived then "Task archived successfully"
        else "Task unarchived successfully"⟩,
      some updated,
      store.map (fun t => if t.id = task.id then updated else t))

/-- PATCH /api/tasks/bulk (routes/tasks.js lines 266-306).  `taskIds = none`
models a missing or non-array field, `updates = none` a missing update object;
`updateMany` hits the tasks whose id is listed and whose owner is the caller,
and reports matched and modified counts. -/
def bulkUpdate (store : List Task) (uid : Nat) (taskIds : Option (List Nat))
    (updates : Option TaskUpdate) : Response × Option (Nat × Nat) × List Task :=
  match taskIds with
  | none => (⟨400, false, "Task IDs are required"⟩, none, store)
  | some ids =>
    if ids.isEmpty then (⟨400, false, "Task IDs are required"⟩, none, store)
    else
      match updates with
      | none => (⟨400, false, "Updates are required"⟩, none, store)
      | some u =>
        if isEmptyUpdate u then (⟨400, false, "Updates are required"⟩, none, store)
        else
          let b := stripUser u
          let hit := fun t : Task => ids.contains t.id && decide (t.user = uid)
          let matched := store.filter hit
          let modified := matched.filter (fun t => decide (applyUpdate b t ≠ t))
          (⟨200, true, toString modified.length ++ " tasks updated successfully"⟩,
            some (matched.length, modified.length),
            store.map (fun t => if hit t then applyUpdate b t else t))

/-- The overdue count of GET /api/tasks/stats/overview (routes/tasks.js lines
231-236); `now` is the request time. -/
def overdueCount (store : List Task) (uid : Nat) (now : Int) : Nat :=
  (store.filter (fun t =>
    decide (t.user = uid) &&
    (match t.dueDate with | some d => decide (d < now) | none => false) &&
    !(decide (t.status = "completed") || decide (t.status = "cancelled")) &&
    decide (t.isArchived = false))).length

/-- The due-today count of GET /api/tasks/stats/overview (routes/tasks.js lines
239-248); `todayStart` and `todayEnd` are the local calendar-day bounds the
route computes from the request time. -/
def dueTodayCount (store : List Task) (uid : Nat) (todayStart todayEnd : Int) : Nat :=
  (store.filter (fun t =>
    decide (t.user = uid) &&
    (match t.dueDate with
     | some d => decide (todayStart ≤ d) && decide (d < todayEnd)
     | none => false) &&
    !(decide (t.status = "completed") || decide (t.status = "cancelled")) &&
    decide (t.isArchived = false))).length

/-- DELETE /api/users/account (routes/users.js lines 108-120): soft delete via
`findByIdAndUpdate` of the caller with the single field `isActive: false`; the
task store is not touched. -/
def deleteAccount (users : List User) (tasks : List Task) (uid : Nat) :
    Response × List User × List Task :=
  (⟨200, true, "Account deactivated successfully"⟩,
    users.map (fun u => if u.id = uid then { u with isActive := false } else u),
    tasks)

/-- A minimal list-request parameter record used by concrete witnesses: no
filters, default sort, first page of ten, archived excluded. -/
def sampleParams : ListParams :=
  ⟨"", "", "", "", "createdAt", "desc", 1, 10, "false"⟩

/-- A minimal task owned by `uid`, used by concrete witnesses. -/
def sampleTask (id uid : Nat) : Task :=
  ⟨id, uid, "t", "", "pending", "medium", "", [], none, false, 0⟩

theorem listTasks_fst (store : List Task) (uid : Nat) (p : ListParams) :
    (listTasks store uid p).1 =
      ((sortTasks (taskLE p) (store.filter (taskMatchesList uid p))).drop
        ((p.page - 1) * p.limit)).take p.limit := rfl

theorem listTasks_snd (store : List Task) (uid : Nat) (p : ListParams) :
    (listTasks store uid p).2 =
      ⟨p.page,
        ((store.filter (taskMatchesList uid p)).length + p.limit - 1) / p.limit,
        (listTasks store uid p).1.length,
        (store.filter (taskMatchesList uid p)).length⟩ := rfl

theorem insertLE_perm (le : Task → Task → Bool) (t : Task) (l : List Task) :
    (insertLE le t l).Perm (t :: l) := by
  induction l with
  | nil => exact List.Perm.refl _
  | cons h tl ih =>
    simp only [insertLE]
    by_cases hle : le t h = true
    · rw [if_pos hle]
    · rw [if_neg hle]
      exact (ih.cons h).trans (List.Perm.swap t h tl)

theorem sortTasks_perm (le : Task → Task → Bool) (l : List Task) :
    (sortTasks le l).Perm l := by
  induction l with
  | nil => exact List.Perm.refl _
  | cons h tl ih => exact (insertLE_perm le h (sortTasks le tl)).trans (ih.cons h)

theorem findOne_eq_some (store : List Task) (id uid : Nat) (t : Task)
    (h : findOne store id uid = some t) :
    t.id = id ∧ t.user = uid ∧ t ∈ store := by
  have hp := List.find?_some h
  have hm := List.mem_of_find?_eq_some h
  simp only [Bool.and_eq_true, decide_eq_true_eq] at hp
  exact ⟨hp.1, hp.2, hm⟩

theorem findOne_eq_none_iff (store : List Task) (id uid : Nat) :
    findOne store id uid = none ↔ ∀ t ∈ store, ¬(t.id = id ∧ t.user = uid) := by
  simp only [findOne, List.find?_eq_none, Bool.and_eq_true, decide_eq_true_eq,
    not_and]

/-- Claim C1: every task returned by the list route is owned by the caller,
regardless of the client-supplied filter, sort and pagination parameters. -/
theorem listTasks_owner_scoped (store : List Task) (uid : Nat) (p : ListParams)
    (t : Task) (h : t ∈ (listTasks store uid p).1) : t.user = uid := by
  rw [listTasks_fst] at h
  have h1 : t ∈ sortTasks (taskLE p) (store.filter (taskMatchesList uid p)) :=
    (List.drop_sublist _ _).subset ((List.take_sublist _ _).subset h)
  have h2 : t ∈ store.filter (taskMatchesList uid p) :=
    (sortTasks_perm _ _).mem_iff.mp h1
  have h3 := (List.mem_filter.mp h2).2
  simp only [taskMatchesList, ownerArchivedClause, Bool.and_eq_true,
    decide_eq_true_eq] at h3
  exact h3.1.1.1

/-- Concrete instance of C1: a store with one task owned by caller 7. -/
theorem listTasks_owner_scoped_witness :
    sampleTask 1 7 ∈ (listTasks [sampleTask 1 7] 7 sampleParams).1 ∧
      (sampleTask 1 7).user = 7 :=
  ⟨by decide, listTasks_owner_scoped [sampleTask 1 7] 7 sampleParams _ (by decide)⟩

/-- The all-absent update payload, used by concrete witnesses. -/
def emptyUpdate : TaskUpdate :=
  ⟨none, none, none, none, none, none, none, none, none⟩

/-- Claim C2: when no task with the given id is owned by the caller — whether
the id matches no record at all or a record owned by a different user — each
single-record route answers with the one NotFound response (404, success
false, message "Task not found") and leaves the store unchanged; no branch can
produce a distinguishing "exists but forbidden" answer. -/
theorem singleRecord_notFound (store : List Task) (uid id : Nat)
    (body : TaskUpdate) (h : ∀ t ∈ store, ¬(t.id = id ∧ t.user = uid)) :
    getTaskById store uid id = (notFoundTask, none) ∧
    updateTask store uid id body = (notFoundTask, store) ∧
    deleteTask store uid id = (notFoundTask, store) ∧
    archiveToggle store uid id = (notFoundTask, none, store) := by
  have hn : findOne store id uid = none := (findOne_eq_none_iff _ _ _).mpr h
  exact ⟨by simp [getTaskById, hn], by simp [updateTask, hn],
    by simp [deleteTask, hn], by simp [archiveToggle, hn]⟩

/-- Concrete instance of C2: task 1 exists but belongs to user 5; caller 7 gets
the NotFound response. -/
theorem singleRecord_notFound_witness :
    (∀ t ∈ [sampleTask 1 5], ¬(t.id = 1 ∧ t.user = 7)) ∧
      getTaskById [sampleTask 1 5] 7 1 = (notFoundTask, none) :=
  ⟨by decide,
    (singleRecord_notFound [sampleTask 1 5] 7 1 emptyUpdate (by decide)).1⟩

/-- Claim C3: the stored owner of every task is unchanged by the single update
route and by the bulk update route, whatever the payload contains — the user
field is stripped server-side before the update is applied. -/
theorem update_preserves_owner (store : List Task) (uid id : Nat)
    (body : TaskUpdate) (taskIds : Option (List Nat))
    (updates : Option TaskUpdate) :
    (updateTask store uid id body).2.map (fun t => t.user) =
        store.map (fun t => t.user) ∧
    (bulkUpdate store uid taskIds updates).2.2.map (fun t => t.user) =
        store.map (fun t => t.user) := by
  constructor
  · unfold updateTask
    cases hf : findOne store id uid with
    | none => rfl
    | some t =>
      simp only [List.map_map]
      apply List.map_congr_left
      intro x _
      by_cases hx : x.id = id <;>
        simp [hx, Function.comp, applyUpdate, stripUser]
  · simp only [bulkUpdate]
    cases taskIds with
    | none => rfl
    | some ids =>
      by_cases hids : ids.isEmpty = true
      · simp [hids]
      · simp only [hids, Bool.false_eq_true, if_false]
        cases updates with
        | none => rfl
        | some u =>
          by_cases hu : isEmptyUpdate u = true
          · simp [hu]
          · simp only [hu, Bool.false_eq_true, if_false, List.map_map]
            apply List.map_congr_left
            intro x _
            simp only [Function.comp_apply, applyUpdate, stripUser]
            split <;> rfl

/-- Replacing, in the whole store, every record with the looked-up id by a new
record that itself carries that id and the caller's owner makes the
ownership-scoped lookup return the new record. -/
theorem findOne_map_replace (id uid : Nat) (nt : Task)
    (hid : nt.id = id) (huid : nt.user = uid) :
    ∀ (store : List Task) (t : Task), findOne store id uid = some t →
      findOne (store.map (fun x => if x.id = id then nt else x)) id uid =
        some nt := by
  intro store
  induction store with
  | nil => intro t h; simp [findOne] at h
  | cons x xs ih =>
    intro t h
    by_cases hx : x.id = id
    · simp [findOne, List.find?_cons, hx, hid, huid]
    · have hpxf : (decide (x.id = id) && decide (x.user = uid)) = false := by
        simp [hx]
      simp only [List.map_cons, if_neg hx]
      simp only [findOne, List.find?_cons, hpxf] at h ⊢
      exact ih t h

/-- Reduced form of the archive route when the ownership-scoped lookup hits:
returned record and stored record both have the flag negated. -/
theorem archiveToggle_step (store : List Task) (uid id : Nat) (t : Task)
    (h : findOne store id uid = some t) :
    (archiveToggle store uid id).2.1 =
        some { t with isArchived := !t.isArchived } ∧
    (archiveToggle store uid id).2.2 =
      store.map (fun x =>
        if x.id = t.id then { t with isArchived := !t.isArchived } else x) := by
  constructor <;> simp only [archiveToggle, h]

/-- Negating the archived flag twice gives back the original record. -/
theorem toggle_twice_eq (x : Task) :
    ({ { x with isArchived := !x.isArchived } with
        isArchived := !(!x.isArchived) } : Task) = x := by
  cases x
  simp

/-- Claim C4: on an owned task the archive route negates the archived flag —
one call returns the task with the flag flipped, and a second call returns and
stores the original record again. -/
theorem archiveToggle_flips (store : List Task) (uid id : Nat) (t : Task)
    (h : findOne store id uid = some t) :
    (archiveToggle store uid id).2.1 =
        some { t with isArchived := !t.isArchived } ∧
    (archiveToggle (archiveToggle store uid id).2.2 uid id).2.1 = some t ∧
    findOne (archiveToggle (archiveToggle store uid id).2.2 uid id).2.2 id uid =
        some t := by
  obtain ⟨hid, huid, -⟩ := findOne_eq_some store id uid t h
  obtain ⟨hA1, hA2⟩ := archiveToggle_step store uid id t h
  set nt : Task := { t with isArchived := !t.isArchived } with hntdef
  have hntid : nt.id = id := hid
  have hntuser : nt.user = uid := huid
  have h1 : findOne (archiveToggle store uid id).2.2 id uid = some nt := by
    rw [hA2, hid]
    exact findOne_map_replace id uid nt hntid hntuser store t h
  obtain ⟨hB1, hB2⟩ := archiveToggle_step _ uid id nt h1
  have hX : ({ nt with isArchived := !nt.isArchived } : Task) = t := by
    rw [hntdef]
    show ({ { t with isArchived := !t.isArchived } with
        isArchived := !(!t.isArchived) } : Task) = t
    exact toggle_twice_eq t
  rw [hX] at hB1 hB2
  rw [hntid] at hB2
  refine ⟨hA1, hB1, ?_⟩
  rw [hB2]
  exact findOne_map_replace id uid t hid huid _ nt h1

/-- Concrete instance of C4: caller 7 toggles task 1 once and twice. -/
theorem archiveToggle_flips_witness :
    findOne [sampleTask 1 7] 1 7 = some (sampleTask 1 7) ∧
      (archiveToggle [sampleTask 1 7] 7 1).2.1 =
        some { sampleTask 1 7 with isArchived := !(sampleTask 1 7).isArchived } :=
  ⟨by decide, (archiveToggle_flips [sampleTask 1 7] 7 1 _ (by decide)).1⟩

theorem ceil_div_eq (N L : Nat) (hL : 0 < L) :
    (N + L - 1) / L = N / L + (if N % L = 0 then 0 else 1) := by
  obtain ⟨q, r, hqr, hr⟩ : ∃ q r, N = r + L * q ∧ r < L :=
    ⟨N / L, N % L, by rw [Nat.add_comm, Nat.div_add_mod], Nat.mod_lt _ hL⟩
  subst hqr
  have hdiv : (r + L * q) / L = q := by
    rw [Nat.add_mul_div_left _ _ hL, Nat.div_eq_of_lt hr]
    omega
  have hmod : (r + L * q) % L = r := by
    rw [Nat.add_mul_mod_self_left, Nat.mod_eq_of_lt hr]
  rw [hdiv, hmod]
  by_cases hr0 : r = 0
  · subst hr0
    rw [if_pos rfl]
    have h1 : 0 + L * q + L - 1 = (L - 1) + L * q := by omega
    rw [h1, Nat.add_mul_div_left _ _ hL, Nat.div_eq_of_lt (by omega)]
    omega
  · rw [if_neg hr0]
    have hr1 : 1 ≤ r := Nat.one_le_iff_ne_zero.mpr hr0
    have h2 : L * (q + 1) = L * q + L := Nat.mul_succ L q
    have h1 : r + L * q + L - 1 = (r - 1) + L * (q + 1) := by omega
    rw [h1, Nat.add_mul_div_left _ _ hL, Nat.div_eq_of_lt (by omega)]
    omega

theorem last_page_size (N L : Nat) (hL : 0 < L) (hN : 0 < N) :
    min L (N - ((N + L - 1) / L - 1) * L) =
      if N % L = 0 then L else N % L := by
  obtain ⟨q, r, hqr, hr⟩ : ∃ q r, N = r + L * q ∧ r < L :=
    ⟨N / L, N % L, by rw [Nat.add_comm, Nat.div_add_mod], Nat.mod_lt _ hL⟩
  subst hqr
  have hdiv : (r + L * q) / L = q := by
    rw [Nat.add_mul_div_left _ _ hL, Nat.div_eq_of_lt hr]
    omega
  have hmod : (r + L * q) % L = r := by
    rw [Nat.add_mul_mod_self_left, Nat.mod_eq_of_lt hr]
  rw [ceil_div_eq _ L hL, hdiv, hmod]
  by_cases hr0 : r = 0
  · subst hr0
    have hq : q ≠ 0 := by rintro rfl; simp at hN
    obtain ⟨s, rfl⟩ : ∃ s, q = s + 1 := ⟨q - 1, by omega⟩
    rw [if_pos rfl, if_pos rfl]
    have e1 : L * (s + 1) = L * s + L := Nat.mul_succ L s
    have e2 : (s + 1 + 0 - 1) * L = L * s := by
      have h4 : s + 1 + 0 - 1 = s := by omega
      rw [h4, Nat.mul_comm]
    omega
  · rw [if_neg hr0, if_neg hr0]
    have e3 : (q + 1 - 1) * L = L * q := by
      have h4 : q + 1 - 1 = q := by omega
      rw [h4, Nat.mul_comm]
    omega

theorem listTasks_count (store : List Task) (uid : Nat) (p : ListParams) :
    (listTasks store uid p).1.length =
      min p.limit
        ((store.filter (taskMatchesList uid p)).length - (p.page - 1) * p.limit) := by
  rw [listTasks_fst, List.length_take, List.length_drop,
    (sortTasks_perm _ _).length_eq]

/-- Claim C5: for page `p ≥ 1` and limit `L > 0` over `N` matching records, the
list route skips `(page-1)*limit` records (so the returned length is
`min L (N - (page-1)*L)`), returns at most `L` records, reports the total
matching count `N` and `ceil(N/L)` total pages, and on the last nonempty page
returns `N mod L` records (or `L` when `L` divides `N`). -/
theorem listTasks_pagination (store : List Task) (uid : Nat) (p : ListParams)
    (_hpage : 1 ≤ p.page) (hlim : 0 < p.limit) :
    (listTasks store uid p).1.length =
        min p.limit ((store.filter (taskMatchesList uid p)).length -
          (p.page - 1) * p.limit) ∧
    (listTasks store uid p).1.length ≤ p.limit ∧
    (listTasks store uid p).2.totalRecords =
        (store.filter (taskMatchesList uid p)).length ∧
    (listTasks store uid p).2.current = p.page ∧
    (listTasks store uid p).2.total =
        (store.filter (taskMatchesList uid p)).length ⌈/⌉ p.limit ∧
    (p.page = (listTasks store uid p).2.total →
      0 < (store.filter (taskMatchesList uid p)).length →
      (listTasks store uid p).1.length =
        (if (store.filter (taskMatchesList uid p)).length % p.limit = 0
         then p.limit
         else (store.filter (taskMatchesList uid p)).length % p.limit)) := by
  have hcount := listTasks_count store uid p
  refine ⟨hcount, ?_, rfl, rfl, rfl, ?_⟩
  · rw [hcount]
    exact Nat.min_le_left _ _
  · intro hp hN
    rw [hcount, hp]
    show min p.limit ((store.filter (taskMatchesList uid p)).length -
      (((store.filter (taskMatchesList uid p)).length + p.limit - 1) / p.limit - 1)
        * p.limit) = _
    exact last_page_size _ p.limit hlim hN

/-- Concrete instance of C5: one matching record, page 1, limit 10. -/
theorem listTasks_pagination_witness :
    1 ≤ sampleParams.page ∧ 0 < sampleParams.limit ∧
      (listTasks [sampleTask 1 7] 7 sampleParams).1.length ≤ sampleParams.limit :=
  ⟨by decide, by decide,
    (listTasks_pagination [sampleTask 1 7] 7 sampleParams (by decide)
        (by decide)).2.1⟩

/-- A nonempty update payload (it also carries an owner field, which the routes
strip), used by concrete witnesses. -/
def sampleUpdate : TaskUpdate :=
  ⟨some 99, some "u", none, none, none, none, none, none, none⟩

/-- Claim C6: the bulk route answers 400 exactly when the id list is missing or
empty or the update payload is missing or empty, and then modifies nothing;
otherwise it answers 200, applies the owner-stripped payload exactly to the
caller's own tasks among the given ids, reports matched and modified counts
separately, and every task that is not both listed and caller-owned — in
particular every task owned by another user — is left untouched. -/
theorem bulkUpdate_spec (store : List Task) (uid : Nat)
    (taskIds : Option (List Nat)) (updates : Option TaskUpdate) :
    ((bulkUpdate store uid taskIds updates).1.status = 400 ↔
      taskIds = none ∨ taskIds = some [] ∨ updates = none ∨
        (∃ u, updates = some u ∧ isEmptyUpdate u = true)) ∧
    ((bulkUpdate store uid taskIds updates).1.status = 400 →
      (bulkUpdate store uid taskIds updates).1.success = false ∧
      (bulkUpdate store uid taskIds updates).2.2 = store ∧
      (bulkUpdate store uid taskIds updates).2.1 = none) ∧
    (∀ ids u, taskIds = some ids → updates = some u → ids ≠ [] →
      isEmptyUpdate u = false →
      (bulkUpdate store uid taskIds updates).1.status = 200 ∧
      (bulkUpdate store uid taskIds updates).1.success = true ∧
      (bulkUpdate store uid taskIds updates).2.1 =
        some ((store.filter
            (fun t => ids.contains t.id && decide (t.user = uid))).length,
          ((store.filter
              (fun t => ids.contains t.id && decide (t.user = uid))).filter
            (fun t => decide (applyUpdate (stripUser u) t ≠ t))).length) ∧
      (bulkUpdate store uid taskIds updates).2.2 =
        store.map (fun t =>
          if ids.contains t.id && decide (t.user = uid)
          then applyUpdate (stripUser u) t else t)) ∧
    (∀ (i : Nat) (t : Task), store[i]? = some t → ¬t.user = uid →
      (bulkUpdate store uid taskIds updates).2.2[i]? = some t) := by
  cases taskIds with
  | none =>
    refine ⟨by simp [bulkUpdate], by simp [bulkUpdate], ?_, ?_⟩
    · intro ids u hids
      simp at hids
    · intro i t hi _
      simp [bulkUpdate, hi]
  | some ids =>
    by_cases hids : ids.isEmpty = true
    · have hne : ids = [] := List.isEmpty_iff.mp hids
      subst hne
      refine ⟨by simp [bulkUpdate], by simp [bulkUpdate], ?_, ?_⟩
      · intro ids' u hids' _ hne' _
        exact absurd (Option.some.inj hids').symm hne'
      · intro i t hi _
        simp [bulkUpdate, hi]
    · have hne : ids ≠ [] := by
        intro hnil
        exact hids (by simp [hnil])
      cases updates with
      | none =>
        refine ⟨by simp [bulkUpdate, hids, hne], by simp [bulkUpdate, hids],
          ?_, ?_⟩
        · intro ids' u _ hu
          simp at hu
        · intro i t hi _
          simp [bulkUpdate, hids, hi]
      | some u =>
        by_cases hu : isEmptyUpdate u = true
        · refine ⟨by simp [bulkUpdate, hids, hne, hu], by simp [bulkUpdate, hids, hu],
            ?_, ?_⟩
          · intro ids' u' _ hu' _ hu''
            rw [Option.some.inj hu'] at hu
            rw [hu] at hu''
            exact absurd hu'' (by simp)
          · intro i t hi _
            simp [bulkUpdate, hids, hu, hi]
        · have hmapped : (bulkUpdate store uid (some ids) (some u)).2.2 =
              store.map (fun t =>
                if ids.contains t.id && decide (t.user = uid)
                then applyUpdate (stripUser u) t else t) := by
            simp [bulkUpdate, hids, hu]
          refine ⟨by simp [bulkUpdate, hids, hne, hu], by simp [bulkUpdate, hids, hu],
            ?_, ?_⟩
          · intro ids' u' hids' hu' _ _
            rw [(Option.some.inj hids').symm, (Option.some.inj hu').symm]
            refine ⟨by simp [bulkUpdate, hids, hu], by simp [bulkUpdate, hids, hu],
              by simp [bulkUpdate, hids, hu], hmapped⟩
          · intro i t hi hti
            rw [hmapped, List.getElem?_map, hi]
            simp [hti]

/-- Concrete instance of C6, the specification's own scenario: three ids of
which two are caller-owned; the route answers 200 and the foreign task at
index 2 is untouched. -/
theorem bulkUpdate_spec_witness :
    (bulkUpdate [sampleTask 1 7, sampleTask 2 7, sampleTask 3 5] 7
        (some [1, 2, 3]) (some sampleUpdate)).1.status = 200 ∧
    (bulkUpdate [sampleTask 1 7, sampleTask 2 7, sampleTask 3 5] 7
        (some [1, 2, 3]) (some sampleUpdate)).2.2[2]? = some (sampleTask 3 5) :=
  ⟨((bulkUpdate_spec [sampleTask 1 7, sampleTask 2 7, sampleTask 3 5] 7
      (some [1, 2, 3]) (some sampleUpdate)).2.2.1 [1, 2, 3] sampleUpdate rfl rfl
      (by decide) (by decide)).1,
    (bulkUpdate_spec [sampleTask 1 7, sampleTask 2 7, sampleTask 3 5] 7
      (some [1, 2, 3]) (some sampleUpdate)).2.2.2 2 (sampleTask 3 5)
      (by decide) (by decide)⟩

/-- List parameters whose only filter is the search string `s`. -/
def searchParams (s : String) : ListParams :=
  ⟨"", "", "", s, "createdAt", "desc", 1, 10, "false"⟩

/-- Counterexample to claim C7 as stated: with search string "." the route's
regex clause accepts the task titled "t" even though "." does not occur as a
substring of its title, description or any tag — the route compiles the raw
search string as a regular expression, not a literal. -/
theorem search_is_regex_not_substring :
    taskMatchesList 7 (searchParams ".") (sampleTask 1 7) = true ∧
    (ciContains (sampleTask 1 7).title "." ||
      ciContains (sampleTask 1 7).description "." ||
      (sampleTask 1 7).tags.any (fun tg => ciContains tg ".")) = false := by
  decide

theorem tokenize_lits (l : List Char) (h : ∀ c ∈ l, c ∉ regexMetaChars) :
    tokenizePattern l = some (l.map RTok.lit) := by
  induction l with
  | nil => rfl
  | cons c cs ih =>
    have hc : c ∉ regexMetaChars := h c (List.mem_cons_self c cs)
    have hdot : ¬c = '.' := by
      intro hc'
      exact hc (hc' ▸ (by decide : ('.' : Char) ∈ regexMetaChars))
    have hcont : regexMetaChars.contains c = false := by
      rw [List.contains, List.elem_eq_mem]
      simpa using hc
    simp only [tokenizePattern, if_neg hdot, hcont, Bool.false_eq_true, if_false]
    rw [ih (fun d hd => h d (List.mem_cons_of_mem c hd))]
    rfl

theorem matchSeqAt_lits (l cs : List Char) :
    matchSeqAt (l.map RTok.lit) cs =
      (l.map Char.toLower).isPrefixOf (cs.map Char.toLower) := by
  induction l generalizing cs with
  | nil => cases cs <;> rfl
  | cons c l' ih =>
    cases cs with
    | nil => rfl
    | cons d ds =>
      simp only [List.map_cons, matchSeqAt, rtokMatches, List.isPrefixOf, ih]

theorem matchSeqSomewhere_lits (l cs : List Char) :
    matchSeqSomewhere (l.map RTok.lit) cs =
      containsSub (cs.map Char.toLower) (l.map Char.toLower) := by
  induction cs with
  | nil =>
    simp only [matchSeqSomewhere, matchSeqAt_lits, List.map_nil, containsSub]
    cases l <;> rfl
  | cons c cs' ih =>
    simp only [matchSeqSomewhere, List.map_cons, containsSub, ih,
      matchSeqAt_lits]

theorem jsRegexTestCI_lits (pat hay : String)
    (h : ∀ c ∈ pat.toList, c ∉ regexMetaChars) :
    jsRegexTestCI pat hay = ciContains hay pat := by
  rw [jsRegexTestCI, tokenize_lits pat.toList h]
  show matchSeqSomewhere (pat.toList.map RTok.lit) hay.toList = ciContains hay pat
  rw [matchSeqSomewhere_lits]
  rfl

/-- Claim C7, amended: for a non-empty search string made of non-metacharacter
characters, a task passes the whole list filter exactly when it passes the
owner/archived clause and the optional filters and the search string occurs
case-insensitively in its title, or in its description, or in one of its tags;
the search clause is conjoined with every other filter.  (For search strings
containing regex metacharacters the route matches the compiled regex instead,
see the counterexample.) -/
theorem searchClause_regex_amended (uid : Nat) (p : ListParams) (t : Task)
    (hs : p.search ≠ "")
    (hmeta : ∀ c ∈ p.search.toList, c ∉ regexMetaChars) :
    taskMatchesList uid p t =
      (ownerArchivedClause uid p t && optionalFilters p t &&
        (ciContains t.title p.search || ciContains t.description p.search ||
          t.tags.any (fun tg => ciContains tg p.search))) := by
  have hs' : p.search.isEmpty = false := by
    rw [Bool.eq_false_iff]
    intro habs
    exact hs ((String.isEmpty_iff p.search).mp habs)
  have hrw : ∀ hay, jsRegexTestCI p.search hay = ciContains hay p.search :=
    fun hay => jsRegexTestCI_lits p.search hay hmeta
  simp only [taskMatchesList, searchClause, hrw, hs', Bool.false_or]

/-- Concrete instance of the amended C7: search string "t" on a task whose
title is "t". -/
theorem searchClause_regex_amended_witness :
    (searchParams "t").search ≠ "" ∧
    (∀ c ∈ (searchParams "t").search.toList, c ∉ regexMetaChars) ∧
    taskMatchesList 7 (searchParams "t") (sampleTask 1 7) =
      (ownerArchivedClause 7 (searchParams "t") (sampleTask 1 7) &&
        optionalFilters (searchParams "t") (sampleTask 1 7) &&
        (ciContains (sampleTask 1 7).title (searchParams "t").search ||
          ciContains (sampleTask 1 7).description (searchParams "t").search ||
          (sampleTask 1 7).tags.any
            (fun tg => ciContains tg (searchParams "t").search))) :=
  ⟨by decide, by decide,
    searchClause_regex_amended 7 (searchParams "t") (sampleTask 1 7)
      (by decide) (by decide)⟩

/-- Spec-side overdue predicate, written after the specification's sentence: a
caller-owned task with a due date strictly before now, status neither completed
nor cancelled, not archived. -/
def specOverdue (uid : Nat) (now : Int) (t : Task) : Bool :=
  decide (t.user = uid) && t.dueDate.any (fun d => decide (d < now)) &&
    decide (t.status ≠ "completed") && decide (t.status ≠ "cancelled") &&
    decide (t.isArchived = false)

/-- Spec-side due-today predicate, written after the specification's sentence:
a caller-owned task with a due date within the local day bounds (start
inclusive, end exclusive), status neither completed nor cancelled, not
archived. -/
def specDueToday (uid : Nat) (dayStart dayEnd : Int) (t : Task) : Bool :=
  decide (t.user = uid) &&
    t.dueDate.any (fun d => decide (dayStart ≤ d) && decide (d < dayEnd)) &&
    decide (t.status ≠ "completed") && decide (t.status ≠ "cancelled") &&
    decide (t.isArchived = false)

/-- Claim C8: the stats route's overdue count counts exactly the caller's
non-archived tasks due strictly before the request time whose status is
neither completed nor cancelled, and its due-today count counts exactly the
caller's non-archived tasks due within the current local day bounds whose
status is neither completed nor cancelled. -/
theorem stats_overview_counts (store : List Task) (uid : Nat)
    (now dayStart dayEnd : Int) :
    overdueCount store uid now =
        (store.filter (specOverdue uid now)).length ∧
    dueTodayCount store uid dayStart dayEnd =
        (store.filter (specDueToday uid dayStart dayEnd)).length := by
  constructor
  · unfold overdueCount
    congr 1
    apply List.filter_congr
    intro t _
    cases hd : t.dueDate <;>
      simp [specOverdue, hd, Option.any, not_or, Bool.and_assoc, and_assoc]
  · unfold dueTodayCount
    congr 1
    apply List.filter_congr
    intro t _
    cases hd : t.dueDate <;>
      simp [specDueToday, hd, Option.any, not_or, Bool.and_assoc, and_assoc]

/-- A user record used by concrete witnesses. -/
def sampleUser : User :=
  ⟨7, "Ann", "ann@x.com", "user", true, none, "pw"⟩

/-- Claim C9: account deletion is a soft mutation — it answers 200, leaves the
task store untouched, removes no user record, and rewrites the caller's record
to the same record with only the active flag set to false, leaving every other
user record unchanged. -/
theorem deleteAccount_soft (users : List User) (tasks : List Task) (uid : Nat) :
    (deleteAccount users tasks uid).1 =
        ⟨200, true, "Account deactivated successfully"⟩ ∧
    (deleteAccount users tasks uid).2.2 = tasks ∧
    (deleteAccount users tasks uid).2.1.length = users.length ∧
    (∀ (i : Nat) (u : User), users[i]? = some u →
      (deleteAccount users tasks uid).2.1[i]? =
        some (if u.id = uid then { u with isActive := false } else u)) := by
  refine ⟨rfl, rfl, by simp [deleteAccount], ?_⟩
  intro i u hi
  simp [deleteAccount, List.getElem?_map, hi]

/-- Concrete instance of C9: deactivating user 7 flips only the active flag. -/
theorem deleteAccount_soft_witness :
    [sampleUser][0]? = some sampleUser ∧
    (deleteAccount [sampleUser] [sampleTask 1 7] 7).2.1[0]? =
      some (if sampleUser.id = 7 then { sampleUser with isActive := false }
            else sampleUser) :=
  ⟨rfl, (deleteAccount_soft [sampleUser] [sampleTask 1 7] 7).2.2.2 0 sampleUser rfl⟩

theorem mem_listTasks_matches (store : List Task) (uid : Nat) (p : ListParams)
    (t : Task) (h : t ∈ (listTasks store uid p).1) :
    taskMatchesList uid p t = true := by
  rw [listTasks_fst] at h
  have h1 := (List.drop_sublist _ _).subset ((List.take_sublist _ _).subset h)
  have h2 := (sortTasks_perm _ _).mem_iff.mp h1
  exact (List.mem_filter.mp h2).2

/-- List parameters with no filters and archived records admitted. -/
def archivedTrueParams : ListParams :=
  ⟨"", "", "", "", "createdAt", "desc", 1, 10, "true"⟩

/-- An archived task owned by user 7, used by concrete witnesses. -/
def sampleArchivedTask : Task :=
  ⟨2, 7, "t", "", "pending", "medium", "", [], none, true, 0⟩

/-- Claim C10: an archived task can appear in the list result only when the
`includeArchived` query value is exactly the string "true"; and when it is
exactly "true" the archived restriction disappears from the match predicate,
so archived and non-archived tasks are treated alike by the remaining
filters. -/
theorem includeArchived_exact_string (store : List Task) (uid : Nat)
    (p : ListParams) (t : Task) :
    (t ∈ (listTasks store uid p).1 → t.isArchived = true →
      p.includeArchived = "true") ∧
    (p.includeArchived = "true" →
      taskMatchesList uid p t =
        (decide (t.user = uid) && optionalFilters p t &&
          (p.search.isEmpty || searchClause p.search t))) := by
  constructor
  · intro hmem harch
    by_contra hic
    have hm := mem_listTasks_matches store uid p t hmem
    have hoa : ownerArchivedClause uid p t = true := by
      simp only [taskMatchesList, Bool.and_eq_true] at hm
      exact hm.1.1
    unfold ownerArchivedClause at hoa
    rw [if_neg hic] at hoa
    simp [harch] at hoa
  · intro hic
    simp only [taskMatchesList, ownerArchivedClause, if_pos hic, Bool.and_true]

/-- Concrete instance of C10: with `includeArchived = "true"` an archived task
is admitted and the match predicate loses the archived restriction. -/
theorem includeArchived_exact_string_witness :
    archivedTrueParams.includeArchived = "true" ∧
    taskMatchesList 7 archivedTrueParams sampleArchivedTask =
      (decide (sampleArchivedTask.user = 7) &&
        optionalFilters archivedTrueParams sampleArchivedTask &&
        (archivedTrueParams.search.isEmpty ||
          searchClause archivedTrueParams.search sampleArchivedTask)) :=
  ⟨(includeArchived_exact_string [sampleArchivedTask] 7 archivedTrueParams
      sampleArchivedTask).1 (by decide) (by decide),
    (includeArchived_exact_string [sampleArchivedTask] 7 archivedTrueParams
      sampleArchivedTask).2 rfl⟩

end PrimeTrade
